import Mathlib

/-!
Shallow embedding of the uncertainty-aware segmentation components of this
repository: the normalizing-flow density (`NormalizingFlowDensity`), the
flow-based decode head (`NfBllBaseDecodeHead`), and the evaluation entry
points (`single_gpu_test` / `multi_gpu_test`) together with the result
aggregation used by the multi-process path.

Tensors are modelled over `ℚ`.  A parameter vector is a `List ℚ`; a feature
map (one batch element) is a channels-by-pixels matrix `List (List ℚ)` (a
1×1 convolution acts pixelwise, so the two spatial axes are flattened into
one pixel axis).  External library calls (pyro transform constructors, the
torch multivariate normal, torch resize, the accuracy metric, the pixel
sampler, randomness) are parameters of the corresponding definitions.
-/

namespace Mmseg

/-- A flow transform exposes an application and the log-absolute-determinant
of the Jacobian of that application, as pyro transforms do
(`transform(z)` and `transform.log_abs_det_jacobian(z, z_next)`). -/
structure FlowTransform where
  apply : List ℚ → List ℚ
  log_abs_det_jacobian : List ℚ → List ℚ → ℚ

/-- `n × n` identity matrix, modelling `torch.eye(dim)`. -/
def eyeMat (n : ℕ) : List (List ℚ) :=
  (List.range n).map (fun i => (List.range n).map (fun j => if i = j then 1 else 0))

/-- State of `NormalizingFlowDensity` (nf_bll_decode_head.py, lines 317-341).
`z0_mean` and `z0_cov` are the base-Gaussian parameters set in `__init__`;
`mean` models the extra attribute that `update_z0_params` assigns on the
module (absent at construction, hence `Option`). -/
structure NormalizingFlowDensity where
  dim : ℕ
  flow_length : ℕ
  flow_type : String
  z0_mean : List ℚ
  z0_cov : List (List ℚ)
  transforms : List FlowTransform
  mean : Option (List ℚ)

/-- Constructor of `NormalizingFlowDensity`: dispatches on `flow_type`,
builds `flow_length` transforms via the external pyro constructors
(modelled by `factory`, indexed so each chain position gets its own
instance), and pins the base Gaussian to mean `zeros(dim)` and identity
covariance, exactly as `__init__` does.  Unknown kinds raise
`NotImplementedError`. -/
def NormalizingFlowDensity.make (factory : String → ℕ → ℕ → FlowTransform)
    (dim flow_length : ℕ) (flow_type : String) :
    Except String NormalizingFlowDensity :=
  if flow_type = "radial_flow" ∨ flow_type = "planar_flow" ∨ flow_type = "iaf_flow" then
    .ok { dim := dim
          flow_length := flow_length
          flow_type := flow_type
          z0_mean := List.replicate dim 0
          z0_cov := eyeMat dim
          transforms := (List.range flow_length).map (fun i => factory flow_type dim i)
          mean := none }
  else
    .error "NotImplementedError"

/-- `NormalizingFlowDensity.forward` (lines 343-349): applies each transform
in chain order, accumulating the sum of the per-transform
log-absolute-Jacobian determinants starting from `0`. -/
def NormalizingFlowDensity.forward (d : NormalizingFlowDensity) (z : List ℚ) :
    List ℚ × ℚ :=
  d.transforms.foldl
    (fun p t =>
      let z_next := t.apply p.1
      (z_next, p.2 + t.log_abs_det_jacobian p.1 z_next))
    (z, 0)

/-- `NormalizingFlowDensity.log_prob` (lines 351-355): runs `forward`, scores
the final vector under `MultivariateNormal(z0_mean, z0_cov)` (the external
torch density, modelled by `mvnLogProb`), and adds the accumulated
log-Jacobian sum. -/
def NormalizingFlowDensity.log_prob
    (mvnLogProb : List ℚ → List (List ℚ) → List ℚ → ℚ)
    (d : NormalizingFlowDensity) (x : List ℚ) : ℚ :=
  let zj := d.forward x
  mvnLogProb d.z0_mean d.z0_cov zj.1 + zj.2

/-- `NormalizingFlowDensity.sample_base` (lines 357-358): draws `n` samples
from `MultivariateNormal(z0_mean, z0_cov)` (external sampler `mvnSample`). -/
def NormalizingFlowDensity.sample_base
    (mvnSample : List ℚ → List (List ℚ) → ℕ → List (List ℚ))
    (d : NormalizingFlowDensity) (n : ℕ) : List (List ℚ) :=
  mvnSample d.z0_mean d.z0_cov n

/-- Pure chain application: the final vector obtained by applying each
transform in order. -/
def applyChain : List FlowTransform → List ℚ → List ℚ
  | [], z => z
  | t :: ts, z => applyChain ts (t.apply z)

/-- Sum over the chain of each transform's log-absolute-Jacobian determinant,
evaluated at the successive intermediate vectors. -/
def chainLogJac : List FlowTransform → List ℚ → ℚ
  | [], _ => 0
  | t :: ts, z => t.log_abs_det_jacobian z (t.apply z) + chainLogJac ts (t.apply z)

/-- A configured decode loss (`build_loss` result): a name, the loss call
`loss(seg_logit, seg_label, weight=…, ignore_index=…)` and `get_logs`. -/
structure LossFn where
  loss_name : String
  call : List ℚ → List ℚ → Option (List ℚ) → ℤ → ℚ
  get_logs : List ℚ → List ℚ → ℤ → List (String × ℚ)

/-- Python-dict membership test on an insertion-ordered association list. -/
def dictContains (d : List (String × ℚ)) (k : String) : Bool :=
  d.any (fun p => p.1 = k)

/-- Python-dict lookup. -/
def dictGet? (d : List (String × ℚ)) (k : String) : Option ℚ :=
  (d.find? (fun p => p.1 = k)).map (fun p => p.2)

/-- Python-dict assignment `d[k] = v`: replaces in place when the key exists,
otherwise appends (insertion order preserved). -/
def dictSet (d : List (String × ℚ)) (k : String) (v : ℚ) : List (String × ℚ) :=
  if dictContains d k then
    d.map (fun p => if p.1 = k then (p.1, v) else p)
  else
    d ++ [(k, v)]

/-- Python `d[k] += v` (used only when `k` is already present). -/
def dictAdd (d : List (String × ℚ)) (k : String) (v : ℚ) : List (String × ℚ) :=
  d.map (fun p => if p.1 = k then (p.1, p.2 + v) else p)

/-- Python `d.update(kvs)`: assign each pair of `kvs` in order. -/
def dictUpdate (d : List (String × ℚ)) (kvs : List (String × ℚ)) :
    List (String × ℚ) :=
  kvs.foldl (fun d p => dictSet d p.1 p.2) d

/-- Mean of a tensor seen as a flat list (`tensor.mean()`). -/
def meanQ (l : List ℚ) : ℚ := l.sum / l.length

/-- `seg_label.squeeze(1).repeat(n, 1, 1)` on a flattened label map: the map
replicated `n` times along the leading (batch) axis. -/
def repeatN (n : ℕ) (l : List ℚ) : List ℚ := (List.replicate n l).flatten

/-- External collaborators of `losses`: the `resize` op (bilinear, to the
label's spatial size) and the `accuracy` metric. -/
structure LossExternals where
  resize : List ℚ → List ℚ → List ℚ
  accuracy : List ℚ → List ℚ → ℤ → ℚ

/-- State of `NfBllBaseDecodeHead` relevant to the claims.  `conv_seg_weight`
is the `num_classes × channels` matrix of the 1×1 `conv_seg` kernel,
`conv_seg_bias` its bias.  `sampler` is the optional pixel sampler's `sample`
method.  `loss_decode` is the list of configured losses (the single-dict
config is the one-element list, matching the `[self.loss_decode]` wrapping
in `losses`). -/
structure NfBllBaseDecodeHead where
  channels : ℕ
  num_classes : ℕ
  conv_seg_weight : List (List ℚ)
  conv_seg_bias : List ℚ
  loss_decode : List LossFn
  sampler : Option (List ℚ → List ℚ → List ℚ)
  ignore_index : ℤ
  latent_dim : ℕ
  flow_type : String
  flow_length : ℕ
  nsamples_train : ℕ
  nsamples_test : ℕ
  density_estimation : NormalizingFlowDensity
  w_numel : ℕ
  b_numel : ℕ
  initial_p : List ℚ

/-- `NfBllBaseDecodeHead.__init__` (lines 62-132), restricted to the fields
the claims touch: builds `conv_seg` (weights given here explicitly since
their random init is external), computes `latent_dim` from the flattened
weight and bias sizes, fixes `nsamples_test = 1`, constructs the
`NormalizingFlowDensity` for the three supported flow kinds and raises
`NotImplementedError` otherwise, and snapshots `initial_p` as the detached
concatenation of the flattened weight and bias. -/
def NfBllBaseDecodeHead.make (factory : String → ℕ → ℕ → FlowTransform)
    (channels num_classes : ℕ) (w : List (List ℚ)) (b : List ℚ)
    (loss_decode : List LossFn) (sampler : Option (List ℚ → List ℚ → List ℚ))
    (ignore_index : ℤ) (flow_type : String) (flow_length nsamples_train : ℕ) :
    Except String NfBllBaseDecodeHead :=
  let latent := w.flatten.length + b.length
  if flow_type = "iaf_flow" ∨ flow_type = "planar_flow" ∨ flow_type = "radial_flow" then
    (NormalizingFlowDensity.make factory latent flow_length flow_type).map
      (fun d =>
        { channels := channels
          num_classes := num_classes
          conv_seg_weight := w
          conv_seg_bias := b
          loss_decode := loss_decode
          sampler := sampler
          ignore_index := ignore_index
          latent_dim := latent
          flow_type := flow_type
          flow_length := flow_length
          nsamples_train := nsamples_train
          nsamples_test := 1
          density_estimation := d
          w_numel := w.flatten.length
          b_numel := b.length
          initial_p := w.flatten ++ b })
  else
    .error "NotImplementedError"

/-- `update_z0_params` (lines 134-139): recomputes `initial_p` from the
current `conv_seg` parameters and assigns `self.density_estimation.mean`. -/
def NfBllBaseDecodeHead.update_z0_params (h : NfBllBaseDecodeHead) :
    NfBllBaseDecodeHead :=
  let p := h.conv_seg_weight.flatten ++ h.conv_seg_bias
  { h with
    initial_p := p
    density_estimation := { h.density_estimation with mean := some p } }

/-- Dot product of two equally long vectors. -/
def dotQ (u v : List ℚ) : ℚ := (List.zipWith (· * ·) u v).sum

/-- Pixel-indexed view of a rectangular channels × pixels matrix: for each
pixel position, the vector of channel values there. -/
def pixelView (img : List (List ℚ)) : List (List ℚ) :=
  (List.range (img.headD []).length).map (fun j => img.map (fun r => r.getD j 0))

/-- `F.conv2d` with a 1×1 kernel on a single batch element: the image is a
channels × pixels matrix; output channel `o` at pixel `p` is
`bias o + Σ_c weight o c * img c p`. -/
def conv1x1Image (w : List (List ℚ)) (b : List ℚ) (img : List (List ℚ)) :
    List (List ℚ) :=
  List.zipWith (fun wr bo => (pixelView img).map (fun pix => bo + dotQ wr pix)) w b

/-- Slice `z_[:w_numel]` reshaped to `w_shape = (num_classes, channels, 1, 1)`:
`num_classes` rows of `channels` entries. -/
def reshapeW (h : NfBllBaseDecodeHead) (zr : List ℚ) : List (List ℚ) :=
  (List.range h.num_classes).map
    (fun i => ((zr.take h.w_numel).drop (i * h.channels)).take h.channels)

/-- Slice `z_[-b_numel:]` reshaped to `b_shape`: the last `b_numel` entries. -/
def reshapeB (h : NfBllBaseDecodeHead) (zr : List ℚ) : List ℚ :=
  zr.drop (zr.length - h.b_numel)

/-- `conv_seg_forward` (lines 141-147): splits `z` into its rows, applies
each row as the (weight, bias) of an independent 1×1 convolution over the
shared feature map `x` (a list of batch elements), and concatenates the
per-row outputs along the batch dimension (`torch.cat(output, dim=0)`). -/
def NfBllBaseDecodeHead.conv_seg_forward (h : NfBllBaseDecodeHead)
    (x : List (List (List ℚ))) (z : List (List ℚ)) : List (List (List ℚ)) :=
  (z.map (fun zr => x.map (conv1x1Image (reshapeW h zr) (reshapeB h zr)))).flatten

/-- Ordinary (non-flow) classification: the base decode head's `cls_seg`
applies a single 1×1 convolution with fixed `(weight, bias)` to every batch
element. -/
def plainClsSeg (w : List (List ℚ)) (b : List ℚ) (x : List (List (List ℚ))) :
    List (List (List ℚ)) :=
  x.map (conv1x1Image w b)

/-- Python's `str.startswith`, computed on the character lists so that it
evaluates inside the kernel. -/
def strStartsWith (s p : String) : Bool := p.toList.isPrefixOf s.toList

/-- The `for loss_decode in losses_decode` loop of `losses` (lines 294-312).
First occurrence of a `loss_name`: the entry is set to the loss value (no
`weight` argument, i.e. `none`) plus `sum_log_jacobians.mean()`; when the
name starts with `"loss_edl"`, `get_logs` is fetched, its
`'mean_jacobian_logdet'` key is set to the (detached) mean, and the whole
log dict is merged via `loss.update`.  Repeated `loss_name`: the entry is
incremented by the loss value computed **with** `weight=seg_weight`, and a
repeated name starting with `"loss_edl"` raises `NotImplementedError`. -/
def lossesLoop (sl lab : List ℚ) (w : Option (List ℚ)) (ign : ℤ) (mj : ℚ) :
    List LossFn → List (String × ℚ) → Except String (List (String × ℚ))
  | [], d => .ok d
  | ld :: rest, d =>
    if dictContains d ld.loss_name then
      let d' := dictAdd d ld.loss_name (ld.call sl lab w ign)
      if strStartsWith ld.loss_name "loss_edl" then
        .error "NotImplementedError"
      else
        lossesLoop sl lab w ign mj rest d'
    else
      let d' := dictSet d ld.loss_name (ld.call sl lab none ign + mj)
      if strStartsWith ld.loss_name "loss_edl" then
        let logs := dictSet (ld.get_logs sl lab ign) "mean_jacobian_logdet" mj
        lossesLoop sl lab w ign mj rest (dictUpdate d' logs)
      else
        lossesLoop sl lab w ign mj rest d'

/-- `NfBllBaseDecodeHead.losses` (lines 272-314): resizes the logits to the
label's size, draws the optional sampler weight, replicates the label once
per drawn sample (`sum_log_jacobians.numel()` copies), seeds the loss dict
with `acc_seg`, and runs the per-loss loop. -/
def NfBllBaseDecodeHead.losses (E : LossExternals) (h : NfBllBaseDecodeHead)
    (seg_logit0 seg_label0 : List ℚ) (sum_log_jacobians : List ℚ) :
    Except String (List (String × ℚ)) :=
  let seg_logit := E.resize seg_logit0 seg_label0
  let seg_weight := h.sampler.map (fun s => s seg_logit seg_label0)
  let seg_label := repeatN sum_log_jacobians.length seg_label0
  let d0 := [("acc_seg", E.accuracy seg_logit seg_label h.ignore_index)]
  lossesLoop seg_logit seg_label seg_weight h.ignore_index
    (meanQ sum_log_jacobians) h.loss_decode d0

/-- Modelled from the spec: the concrete subclass `forward(inputs, n_samples)`
is not under `src/` (only the abstract placeholder is).  Per spec §4.2 it
draws `n` base samples anchored at the current parameters (the draw itself
is external randomness, modelled by `draw`), pushes each through the flow,
applies the sampled parameters via `conv_seg_forward`, and returns the
logits together with the per-sample log-Jacobian sums.  The sample count
defaults to 1, the inference-time count. -/
def NfBllBaseDecodeHead.forward (h : NfBllBaseDecodeHead)
    (draw : ℕ → List (List ℚ)) (inputs : List (List (List ℚ)))
    (n : ℕ := 1) : List (List (List ℚ)) × List ℚ :=
  let z0s := draw n
  let flowed := z0s.map (fun z0 => h.density_estimation.forward z0)
  let z := flowed.map (fun p => p.1)
  let sum_log_jacobians := flowed.map (fun p => p.2)
  (h.conv_seg_forward inputs z, sum_log_jacobians)

/-- `forward_train` (lines 227-245): calls `forward` with `nsamples_train`
and feeds logits and Jacobian sums to `losses`. -/
def NfBllBaseDecodeHead.forward_train (E : LossExternals)
    (flattenLogits : List (List (List ℚ)) → List ℚ)
    (h : NfBllBaseDecodeHead) (draw : ℕ → List (List ℚ))
    (inputs : List (List (List ℚ))) (gt_semantic_seg : List ℚ) :
    Except String (List (String × ℚ)) :=
  let fw := h.forward draw inputs h.nsamples_train
  h.losses E (flattenLogits fw.1) gt_semantic_seg fw.2

/-- `forward_test` (lines 247-262): the body is `return self.forward(inputs)`
— no explicit sample count is passed, and `forward`'s result is returned
unchanged. -/
def NfBllBaseDecodeHead.forward_test (h : NfBllBaseDecodeHead)
    (draw : ℕ → List (List ℚ)) (inputs : List (List (List ℚ))) :
    List (List (List ℚ)) × List ℚ :=
  h.forward draw inputs

/-- One entry of the accumulated result list: a raw prediction, a path to a
spilled prediction (`efficient_test`), a dataset-formatted result
(`format_only`), or a `(seg_pre_result, aux_pre_result)` pair (`pre_eval`). -/
inductive ResultEntry where
  | raw (v : ℚ)
  | path (s : String)
  | formatted (v : ℚ)
  | pre (seg oth : ℚ)
deriving DecidableEq

/-- The data the loop body reads from one loader step: the model's
predictions for the batch, the detached logits, the reduced ground truth of
the first batch index, and the original filename used for visualization
output paths. -/
structure BatchData where
  pred : List ℚ
  logit : ℚ
  gt : ℚ
  filename : String

/-- External collaborators of the evaluation loops: the loader state, the
dataset size, and the dataset/tempfile operations applied to results. -/
structure TestEnv where
  batches : List BatchData
  dataset_len : ℕ
  batch_size : ℕ
  np2tmpName : ℚ → String
  format_results : List ResultEntry → List ResultEntry
  pre_eval_seg : List ResultEntry → ℚ
  pre_eval_custom : ℚ → ℚ → ℚ

/-- The visualization branch of `single_gpu_test` (lines 141-207), entered
when `show or out_dir`.  `out_file` is bound to the joined output path when
`out_dir` is set and to `None` otherwise (lines 156-159).  The first
`show_result` call accepts `out_file=None`; the ground-truth overlay then
builds its path as `out_file[:-4] + "_gt" + out_file[-4:]` (line 177),
which raises `TypeError` when `out_file` is `None`.  On success the list of
derived output paths is returned. -/
def vizBranch (show_ : Bool) (out_dir : Option String) (bd : BatchData) :
    Except String (List String) :=
  if show_ || out_dir.isSome then
    let out_file : Option String := out_dir.map (fun d => d ++ "/" ++ bd.filename)
    match out_file with
    | none => .error "TypeError: NoneType object is not subscriptable"
    | some f =>
        .ok [f,
             f.dropRight 4 ++ "_gt" ++ f.takeRight 4,
             f.dropRight 4 ++ "_edge_mask" ++ f.takeRight 4]
  else
    .ok []

/-- The shared mode dispatch applied to one batch's `result` (efficient
spill, dataset formatting, or pre-evaluation reduction), mirroring lines
209-255 of `single_gpu_test` and lines 337-382 of `multi_gpu_test`. -/
def modeDispatch (env : TestEnv)
    (efficient_test format_only pre_eval : Bool) (bd : BatchData) :
    List ResultEntry :=
  let result : List ResultEntry := bd.pred.map ResultEntry.raw
  let result := if efficient_test
    then bd.pred.map (fun v => ResultEntry.path (env.np2tmpName v))
    else result
  let result := if format_only then env.format_results result else result
  if pre_eval then
    [ResultEntry.pre (env.pre_eval_seg result) (env.pre_eval_custom bd.logit bd.gt)]
  else
    result

/-- The per-batch loop of `single_gpu_test` (lines 115-259): inference,
visualization branch, mode dispatch, `results.extend(result)`. -/
def singleLoop (env : TestEnv) (show_ : Bool) (out_dir : Option String)
    (efficient_test format_only pre_eval : Bool) :
    List BatchData → List ResultEntry → Except String (List ResultEntry)
  | [], acc => .ok acc
  | bd :: rest, acc =>
    match vizBranch show_ out_dir bd with
    | .error e => .error e
    | .ok _ =>
        singleLoop env show_ out_dir efficient_test format_only pre_eval rest
          (acc ++ modeDispatch env efficient_test format_only pre_eval bd)

/-- `single_gpu_test` (lines 55-261).  The returned pair is (directories
created, outcome): when `efficient_test` is true the `.efficient_test`
directory is created (line 92) *before* the mutual-exclusion assert (line
95); the batch-size assert (line 100) follows; then the loop runs. -/
def single_gpu_test (env : TestEnv) (show_ : Bool) (out_dir : Option String)
    (efficient_test : Bool) (pre_eval : Bool) (format_only : Bool) :
    List String × Except String (List ResultEntry) :=
  let dirs := if efficient_test then [".efficient_test"] else []
  if ([efficient_test, pre_eval, format_only].count true) ≤ 1 then
    if env.batch_size = 1 then
      (dirs, singleLoop env show_ out_dir efficient_test format_only pre_eval
        env.batches [])
    else
      (dirs, .error "TEST SCRIPT ONLY WORKS WITH BATCH SIZE=1")
  else
    (dirs, .error "efficient_test, pre_eval and format_only are mutually exclusive, only one of them could be true .")

/-- The per-batch loop of `multi_gpu_test` (lines 330-387): same mode
dispatch, but no visualization branch and no possible failure. -/
def multiLoop (env : TestEnv) (efficient_test format_only pre_eval : Bool) :
    List BatchData → List ResultEntry → List ResultEntry
  | [], acc => acc
  | bd :: rest, acc =>
      multiLoop env efficient_test format_only pre_eval rest
        (acc ++ modeDispatch env efficient_test format_only pre_eval bd)

/-- `multi_gpu_test` (lines 264-394), the per-process part up to the final
collection.  As in `single_gpu_test`, the `.efficient_test` directory is
created before the mutual-exclusion assert.  There is **no** batch-size
assert in this function; the loop runs for any `env.batch_size`. -/
def multi_gpu_test (env : TestEnv)
    (efficient_test : Bool) (pre_eval : Bool) (format_only : Bool) :
    List String × Except String (List ResultEntry) :=
  let dirs := if efficient_test then [".efficient_test"] else []
  if ([efficient_test, pre_eval, format_only].count true) ≤ 1 then
    (dirs, .ok (multiLoop env efficient_test format_only pre_eval env.batches []))
  else
    (dirs, .error "efficient_test, pre_eval and format_only are mutually exclusive, only one of them could be true .")

/-- Failure-propagating traversal over `Option`, used to state the
aggregation contract (`some` only when every index yields a value). -/
def optTraverse {α β : Type} (f : α → Option β) : List α → Option (List β)
  | [] => some []
  | a :: l =>
    match f a, optTraverse f l with
    | some b, some bs => some (b :: bs)
    | _, _ => none

/-- Modelled from the spec: `collect_results_gpu` / `collect_results_cpu`
lookup of global index `k`: process `k % W` contributed it at local
position `k / W`. -/
def collectLookup {α : Type} (parts : List (List α)) (k : ℕ) : Option α :=
  (parts.get? (k % parts.length)).bind (fun l => l.get? (k / parts.length))

/-- Modelled from the spec: `collect_results_cpu` is imported from
`mmcv.engine` and is not under `src/`; only its call site
(`multi_gpu_test`, lines 389-394) is.  Per spec §4.4 the coordinator
interleaves the per-process partial lists back into global dataset order
under the fixed round-robin contract (process `i` contributed every
`world_size`-th index starting at `i`), discards excess padding entries
when reassembling up to the dataset size, and fails (here: `none`) if any
dataset index is missing a result. -/
def collect_results_cpu {α : Type} (parts : List (List α)) (size : ℕ) :
    Option (List α) :=
  optTraverse (collectLookup parts) (List.range size)

/-- The round-robin share of process `i` in a distributed run over the
padded sample list `g`: the `m` entries at global indices `i`, `i + W`,
`i + 2W`, …, as produced by a distributed sampler with `world_size = W`. -/
def roundRobinShard {α : Type} (W m i : ℕ) (g : List α) (dflt : α) : List α :=
  (List.range m).map (fun j => g.getD (j * W + i) dflt)

/-- A flow transform that leaves its input unchanged with zero log-Jacobian
(a stand-in for an externally constructed pyro transform). -/
def trivTransform : FlowTransform := ⟨id, fun _ _ => 0⟩

/-- A transform factory returning `trivTransform` for every chain slot. -/
def trivFactory : String → ℕ → ℕ → FlowTransform := fun _ _ _ => trivTransform

/-- A concrete flow density with no transforms over a 2-dimensional latent. -/
def nfdC : NormalizingFlowDensity :=
  { dim := 2, flow_length := 0, flow_type := "planar_flow",
    z0_mean := [0, 0], z0_cov := eyeMat 2, transforms := [], mean := none }

/-- A concrete flow density whose single transform is the identity with
constant log-Jacobian 3. -/
def nfdJ : NormalizingFlowDensity :=
  { dim := 2, flow_length := 1, flow_type := "planar_flow",
    z0_mean := [0, 0], z0_cov := eyeMat 2,
    transforms := [⟨id, fun _ _ => 3⟩], mean := none }

/-- A concrete head: one input channel, one class, `conv_seg` weight `[[1]]`
and bias `[1]`, so the latent dimension is 2. -/
def hC : NfBllBaseDecodeHead :=
  { channels := 1, num_classes := 1, conv_seg_weight := [[1]],
    conv_seg_bias := [1], loss_decode := [], sampler := none,
    ignore_index := 255, latent_dim := 2, flow_type := "planar_flow",
    flow_length := 0, nsamples_train := 10, nsamples_test := 1,
    density_estimation := nfdC, w_numel := 1, b_numel := 1,
    initial_p := [1, 1] }

/-- `hC` with the constant-Jacobian density `nfdJ`. -/
def hCJ : NfBllBaseDecodeHead := { hC with density_estimation := nfdJ }

/-- A concrete evaluation environment with an empty loader. -/
def envC : TestEnv :=
  { batches := [], dataset_len := 0, batch_size := 1,
    np2tmpName := fun _ => ".efficient_test/tmp.npy",
    format_results := id, pre_eval_seg := fun _ => 0,
    pre_eval_custom := fun _ _ => 0 }

/-- A concrete loader step. -/
def bd0 : BatchData := { pred := [1], logit := 0, gt := 0, filename := "img.png" }

/-- `envC` with one batch and loader batch size 2. -/
def envB2 : TestEnv := { envC with batches := [bd0], batch_size := 2 }

/-- `envC` with one batch (batch size 1). -/
def env1 : TestEnv := { envC with batches := [bd0] }

/-- The external randomness of the spec-modelled `forward`: every base draw
is the vector `[1, 2]`. -/
def draw1 : ℕ → List (List ℚ) := fun n => List.replicate n [1, 2]

/-- A loss externals instance: identity resize, zero accuracy. -/
def E0 : LossExternals := ⟨fun l _ => l, fun _ _ _ => 0⟩

/-- A concrete evidential loss: value 10 when called without a weight, 100
with one; no extra logs. -/
def edlLoss : LossFn :=
  ⟨"loss_edl_mse", fun _ _ w _ => match w with | none => 10 | some _ => 100,
   fun _ _ _ => []⟩

/-- A concrete cross-entropy-style loss: 20 without a weight, 200 with. -/
def ceLoss : LossFn :=
  ⟨"loss_ce", fun _ _ w _ => match w with | none => 20 | some _ => 200,
   fun _ _ _ => []⟩

/-- `hC` with a configured sampler and both concrete losses. -/
def headW : NfBllBaseDecodeHead :=
  { hC with loss_decode := [edlLoss, ceLoss], sampler := some (fun _ _ => [1]) }

/-- `hC` with a configured sampler and the single evidential loss. -/
def headE : NfBllBaseDecodeHead :=
  { hC with loss_decode := [edlLoss], sampler := some (fun _ _ => [1]) }

theorem foldl_forward_eq (ts : List FlowTransform) (z : List ℚ) (a : ℚ) :
    ts.foldl
      (fun (p : List ℚ × ℚ) t =>
        let z_next := t.apply p.1
        (z_next, p.2 + t.log_abs_det_jacobian p.1 z_next))
      (z, a)
    = (applyChain ts z, a + chainLogJac ts z) := by
  induction ts generalizing z a with
  | nil => simp [applyChain, chainLogJac]
  | cons t ts ih =>
      simp only [List.foldl_cons, applyChain, chainLogJac, ih, add_assoc]

theorem forward_eq_chain (d : NormalizingFlowDensity) (z : List ℚ) :
    d.forward z = (applyChain d.transforms z, chainLogJac d.transforms z) := by
  have h := foldl_forward_eq d.transforms z 0
  simpa [NormalizingFlowDensity.forward] using h

/-- C1: for every input vector and every constructed transform chain,
`NormalizingFlowDensity.log_prob x` equals the log-density — under the
base Gaussian parameters `(z0_mean, z0_cov)` — of the final vector returned
by `forward x`, plus the accumulated sum of each transform's
log-absolute-Jacobian-determinant along the chain (change-of-variables
identity; exact over `ℚ`, so "within floating-point tolerance" is
trivially met). -/
theorem C1_log_prob_change_of_variables
    (mvnLogProb : List ℚ → List (List ℚ) → List ℚ → ℚ)
    (d : NormalizingFlowDensity) (x : List ℚ) :
    d.log_prob mvnLogProb x
      = mvnLogProb d.z0_mean d.z0_cov (d.forward x).1 + chainLogJac d.transforms x := by
  have h := forward_eq_chain d x
  simp [NormalizingFlowDensity.log_prob, h]

/-- C3: the claim is right, the code is wrong.  `update_z0_params` assigns
`density_estimation.mean`, but `log_prob` and `sample_base` read `z0_mean`,
which the constructor pins to `zeros(dim)` and which no code path ever
updates — so the base Gaussian stays zero-mean.  First conjuncts: for every
head, `log_prob` and `sample_base` are unchanged by `update_z0_params`.
Last conjuncts: at the concrete failing input (conv_seg weight `[[1]]`,
bias `[1]`, planar flow), after `update_z0_params` the written `mean`
attribute is `initial_p = [1, 1]`, while the `z0_mean` that `log_prob` and
`sample_base` consume is still `[0, 0]`; a density/sampler probing the mean
it receives is handed the zero vector, not `initial_p`. -/
theorem C3_update_z0_params_mean_unused :
    (∀ (h : NfBllBaseDecodeHead) (mvn : List ℚ → List (List ℚ) → List ℚ → ℚ)
        (x : List ℚ),
        h.update_z0_params.density_estimation.log_prob mvn x
          = h.density_estimation.log_prob mvn x)
    ∧ (∀ (h : NfBllBaseDecodeHead)
        (s : List ℚ → List (List ℚ) → ℕ → List (List ℚ)) (n : ℕ),
        h.update_z0_params.density_estimation.sample_base s n
          = h.density_estimation.sample_base s n)
    ∧ ((NfBllBaseDecodeHead.make trivFactory 1 1 [[1]] [1] [] none 255
          "planar_flow" 2 10).toOption.map
        (fun h =>
          (h.update_z0_params.density_estimation.mean,
           h.update_z0_params.density_estimation.z0_mean,
           h.update_z0_params.initial_p,
           h.update_z0_params.density_estimation.log_prob (fun m _ _ => m.headD 9) [0, 0],
           h.update_z0_params.density_estimation.sample_base (fun m _ _ => [m]) 1))
        = some (some [1, 1], [0, 0], [1, 1], 0, [[0, 0]])) := by
  refine ⟨fun h mvn x => rfl, fun h s n => rfl, ?_⟩
  simp [NfBllBaseDecodeHead.make, NormalizingFlowDensity.make,
    NfBllBaseDecodeHead.update_z0_params, NormalizingFlowDensity.log_prob,
    NormalizingFlowDensity.sample_base, NormalizingFlowDensity.forward,
    trivFactory, trivTransform, eyeMat, List.range_succ, Except.toOption,
    Except.map]

theorem conv_seg_forward_length (h : NfBllBaseDecodeHead)
    (x : List (List (List ℚ))) (z : List (List ℚ)) :
    (h.conv_seg_forward x z).length = z.length * x.length := by
  unfold NfBllBaseDecodeHead.conv_seg_forward
  induction z with
  | nil => simp
  | cons zr z ih =>
      simp only [List.map_cons, List.flatten_cons, List.length_append,
        List.length_map, List.length_cons, ih, Nat.succ_mul]
      ring

/-- C4: for every feature map `x` of batch size `b` and matrix `z` of `n`
sampled parameter vectors (each of length `w_numel + b_numel`),
`conv_seg_forward` returns a logits batch of leading dimension exactly
`n·b`, formed by applying each sampled (weight, bias) pair as an
independent 1×1 convolution over the shared feature map and concatenating
along the batch dimension; the bias slice `z_[-b_numel:]` is the tail after
the weight block, and for `n = 1` the output equals ordinary non-flow
classification (`plainClsSeg`) with those parameters. -/
theorem C4_conv_seg_forward_blocks (h : NfBllBaseDecodeHead)
    (x : List (List (List ℚ))) (z : List (List ℚ))
    (hz : ∀ zr ∈ z, zr.length = h.w_numel + h.b_numel) :
    (h.conv_seg_forward x z).length = z.length * x.length
    ∧ h.conv_seg_forward x z
        = (z.map (fun zr => plainClsSeg (reshapeW h zr) (reshapeB h zr) x)).flatten
    ∧ (∀ zr ∈ z, reshapeB h zr = zr.drop h.w_numel)
    ∧ (∀ zr, h.conv_seg_forward x [zr] = plainClsSeg (reshapeW h zr) (reshapeB h zr) x) := by
  refine ⟨conv_seg_forward_length h x z, rfl, ?_, ?_⟩
  · intro zr hmem
    have hlen := hz zr hmem
    unfold reshapeB
    rw [hlen]
    congr 1
    omega
  · intro zr
    simp [NfBllBaseDecodeHead.conv_seg_forward, plainClsSeg]

theorem C4_witness :
    (∀ zr ∈ ([[5, 7], [11, 13]] : List (List ℚ)), zr.length = hC.w_numel + hC.b_numel)
    ∧ ((hC.conv_seg_forward [[[2, 3]]] [[5, 7], [11, 13]]).length
          = ([[5, 7], [11, 13]] : List (List ℚ)).length * ([[[2, 3]]] : List (List (List ℚ))).length
       ∧ hC.conv_seg_forward [[[2, 3]]] [[5, 7], [11, 13]]
          = (([[5, 7], [11, 13]] : List (List ℚ)).map
              (fun zr => plainClsSeg (reshapeW hC zr) (reshapeB hC zr) [[[2, 3]]])).flatten
       ∧ (∀ zr ∈ ([[5, 7], [11, 13]] : List (List ℚ)), reshapeB hC zr = zr.drop hC.w_numel)
       ∧ (∀ zr, hC.conv_seg_forward [[[2, 3]]] [zr]
            = plainClsSeg (reshapeW hC zr) (reshapeB hC zr) [[[2, 3]]])) :=
  ⟨by decide, C4_conv_seg_forward_blocks hC [[[2, 3]]] [[5, 7], [11, 13]] (by decide)⟩

/-- C2 counterexample: with `efficient_test = True` and `pre_eval = True`
both entry points do reject with the descriptive mutual-exclusion error,
but the `.efficient_test` temporary directory has already been created —
the call is not free of side effects, contradicting the claim. -/
theorem C2_counterexample :
    (single_gpu_test envC false none true true false).1 = [".efficient_test"]
    ∧ (single_gpu_test envC false none true true false).2
        = .error "efficient_test, pre_eval and format_only are mutually exclusive, only one of them could be true ."
    ∧ (multi_gpu_test envC true true false).1 = [".efficient_test"]
    ∧ (multi_gpu_test envC true true false).2
        = .error "efficient_test, pre_eval and format_only are mutually exclusive, only one of them could be true ." :=
  ⟨rfl, rfl, rfl, rfl⟩

/-- C2 (amended): if more than one of the three flags is true, both entry
points reject with the descriptive mutual-exclusion error before any batch
is processed; the only prior side effect is that the `.efficient_test`
directory is created exactly when `efficient_test` is among the flags. -/
theorem C2_amended_reject_after_mkdir (env : TestEnv) (show_ : Bool)
    (out_dir : Option String) (et pe fo : Bool)
    (hcount : 2 ≤ ([et, pe, fo].count true)) :
    (single_gpu_test env show_ out_dir et pe fo).2
        = .error "efficient_test, pre_eval and format_only are mutually exclusive, only one of them could be true ."
    ∧ (multi_gpu_test env et pe fo).2
        = .error "efficient_test, pre_eval and format_only are mutually exclusive, only one of them could be true ."
    ∧ (single_gpu_test env show_ out_dir et pe fo).1
        = (if et then [".efficient_test"] else [])
    ∧ (multi_gpu_test env et pe fo).1
        = (if et then [".efficient_test"] else []) := by
  have hn : ¬(([et, pe, fo].count true) ≤ 1) := by omega
  refine ⟨?_, ?_, ?_, ?_⟩ <;> simp [single_gpu_test, multi_gpu_test, hn]

theorem C2_witness :
    2 ≤ ([true, true, false].count true)
    ∧ ((single_gpu_test envC false none true true false).2
        = .error "efficient_test, pre_eval and format_only are mutually exclusive, only one of them could be true ."
      ∧ (multi_gpu_test envC true true false).2
        = .error "efficient_test, pre_eval and format_only are mutually exclusive, only one of them could be true ."
      ∧ (single_gpu_test envC false none true true false).1
        = (if true then [".efficient_test"] else [])
      ∧ (multi_gpu_test envC true true false).1
        = (if true then [".efficient_test"] else [])) :=
  ⟨by decide, C2_amended_reject_after_mkdir envC false none true true false (by decide)⟩

/-- C9 counterexample: with loader batch size 2 and no mode flag set,
`multi_gpu_test` does not reject — it runs the loop and returns results —
so the two entry points do not both require batch size one. -/
theorem C9_counterexample :
    envB2.batch_size = 2
    ∧ (multi_gpu_test envB2 false false false).2 = .ok [ResultEntry.raw 1] :=
  ⟨rfl, rfl⟩

/-- C9 (amended): `single_gpu_test` asserts `batch_size == 1` (after the
flag check, before any inference) and rejects any other batch size with
the descriptive assert message; `multi_gpu_test` performs no batch-size
check at all and proceeds with its loop for any batch size. -/
theorem C9_amended_batch_size :
    (∀ (env : TestEnv) (show_ : Bool) (od : Option String) (et pe fo : Bool),
        ([et, pe, fo].count true) ≤ 1 → env.batch_size ≠ 1 →
        (single_gpu_test env show_ od et pe fo).2
          = .error "TEST SCRIPT ONLY WORKS WITH BATCH SIZE=1")
    ∧ (∀ (env : TestEnv) (et pe fo : Bool),
        ([et, pe, fo].count true) ≤ 1 →
        (multi_gpu_test env et pe fo).2
          = .ok (multiLoop env et fo pe env.batches [])) := by
  constructor
  · intro env show_ od et pe fo hc hb
    simp [single_gpu_test, hc, hb]
  · intro env et pe fo hc
    simp [multi_gpu_test, hc]

theorem C9_witness :
    (([false, false, false].count true) ≤ 1 ∧ envB2.batch_size ≠ 1)
    ∧ (single_gpu_test envB2 false none false false false).2
        = .error "TEST SCRIPT ONLY WORKS WITH BATCH SIZE=1"
    ∧ (multi_gpu_test envB2 false false false).2
        = .ok (multiLoop envB2 false false false envB2.batches []) :=
  ⟨⟨by decide, by decide⟩,
   C9_amended_batch_size.1 envB2 false none false false false (by decide) (by decide),
   C9_amended_batch_size.2 envB2 false false false (by decide)⟩

theorem singleLoop_ok_of_outdir (env : TestEnv) (show_ : Bool) (d : String)
    (et fo pe : Bool) :
    ∀ (bs : List BatchData) (acc : List ResultEntry),
      ∃ rs, singleLoop env show_ (some d) et fo pe bs acc = .ok rs := by
  intro bs
  induction bs with
  | nil => intro acc; exact ⟨acc, rfl⟩
  | cons bd rest ih =>
      intro acc
      simpa [singleLoop, vizBranch] using ih (acc ++ modeDispatch env et fo pe bd)

/-- C10: calling `single_gpu_test` with `show=True` and `out_dir=None`
binds `out_file` to `None` in the visualization branch of the first batch
and evaluates `out_file[:-4]` for the ground-truth overlay, so the call
raises `TypeError` instead of displaying results; with `out_dir` set the
visualization branch (and the whole loop) completes. -/
theorem C10_show_without_out_dir_raises (env : TestEnv) (bd : BatchData)
    (rest : List BatchData) (hb : env.batches = bd :: rest)
    (hbs : env.batch_size = 1) :
    (single_gpu_test env true none false false false).2
        = .error "TypeError: NoneType object is not subscriptable"
    ∧ (∀ d : String, ∃ rs,
        (single_gpu_test env true (some d) false false false).2 = .ok rs) := by
  constructor
  · simp [single_gpu_test, hbs, hb, singleLoop, vizBranch]
  · intro d
    have h := singleLoop_ok_of_outdir env true d false false false env.batches []
    simpa [single_gpu_test, hbs] using h

theorem C10_witness :
    (env1.batches = bd0 :: [] ∧ env1.batch_size = 1)
    ∧ (single_gpu_test env1 true none false false false).2
        = .error "TypeError: NoneType object is not subscriptable"
    ∧ (∀ d : String, ∃ rs,
        (single_gpu_test env1 true (some d) false false false).2 = .ok rs) :=
  ⟨⟨rfl, rfl⟩,
   (C10_show_without_out_dir_raises env1 bd0 [] rfl rfl).1,
   (C10_show_without_out_dir_raises env1 bd0 [] rfl rfl).2⟩

theorem optTraverse_length {α β : Type} (f : α → Option β) :
    ∀ (l : List α) (r : List β), optTraverse f l = some r → r.length = l.length := by
  intro l
  induction l with
  | nil => intro r h; simp [optTraverse] at h; simp [← h]
  | cons a l ih =>
      intro r h
      simp only [optTraverse] at h
      cases hfa : f a with
      | none => rw [hfa] at h; simp at h
      | some b =>
          rw [hfa] at h
          cases hrec : optTraverse f l with
          | none => rw [hrec] at h; simp at h
          | some bs =>
              rw [hrec] at h
              simp only [Option.some.injEq] at h
              subst h
              simp [ih bs hrec]

theorem optTraverse_none {α β : Type} (f : α → Option β) :
    ∀ (l : List α) (x : α), x ∈ l → f x = none → optTraverse f l = none := by
  intro l
  induction l with
  | nil => intro x hx; simp at hx
  | cons a l ih =>
      intro x hx hfx
      rcases List.mem_cons.mp hx with h | h
      · subst h; simp [optTraverse, hfx]
      · simp only [optTraverse]
        rw [ih x h hfx]
        cases f a <;> simp

theorem optTraverse_map {α β : Type} (f : α → Option β) (g : α → β) :
    ∀ (l : List α), (∀ x ∈ l, f x = some (g x)) → optTraverse f l = some (l.map g) := by
  intro l
  induction l with
  | nil => intro _; simp [optTraverse]
  | cons a l ih =>
      intro h
      have ha := h a (List.mem_cons_self a l)
      have hl := ih (fun x hx => h x (List.mem_cons_of_mem a hx))
      simp [optTraverse, ha, hl]

theorem collectLookup_shard {α : Type} (W m D : ℕ) (g : List α) (dflt : α)
    (hW : 0 < W) (hD : D ≤ W * m) (k : ℕ) (hk : k < D) :
    collectLookup ((List.range W).map (fun i => roundRobinShard W m i g dflt)) k
      = some (g.getD k dflt) := by
  unfold collectLookup
  have hlen : ((List.range W).map (fun i => roundRobinShard W m i g dflt)).length = W := by
    simp
  rw [hlen]
  have hmod : k % W < W := Nat.mod_lt _ hW
  have hdiv : k / W < m := by
    rw [Nat.div_lt_iff_lt_mul hW, Nat.mul_comm]
    omega
  rw [List.get?_map, List.get?_range hmod]
  simp only [Option.map_some', Option.some_bind]
  rw [roundRobinShard, List.get?_map, List.get?_range hdiv]
  simp only [Option.map_some']
  have hidx : k / W * W + k % W = k := by
    have h := Nat.div_add_mod k W
    have h2 : k / W * W = W * (k / W) := Nat.mul_comm _ _
    omega
  rw [hidx]

theorem range_map_getD_eq_take {α : Type} (D : ℕ) (g : List α) (dflt : α)
    (hD : D ≤ g.length) :
    (List.range D).map (fun k => g.getD k dflt) = g.take D := by
  apply List.ext_getElem
  · simp [hD]
  · intro i h1 h2
    have hi : i < g.length := by
      simp only [List.length_map, List.length_range] at h1
      omega
    simp only [List.getElem_map, List.getElem_range, List.getElem_take]
    exact List.getD_eq_getElem g dflt hi

/-- C7: (spec-modelled aggregation) for any world size `W` and dataset size
`D` — including `D` not divisible by `W`, with per-process shares padded to
`m = ⌈D/W⌉` entries — collecting the round-robin shards reconstructs
exactly the first `D` entries in original dataset-index order (excess
padding discarded); a successful collection always has length exactly
`size` (never a silently short list); and a missing result for any dataset
index makes the aggregation fail with `none`. -/
theorem C7_collect_results_cpu_order :
    (∀ (α : Type) (W m D : ℕ) (g : List α) (dflt : α),
        0 < W → g.length = W * m → D ≤ W * m →
        collect_results_cpu
            ((List.range W).map (fun i => roundRobinShard W m i g dflt)) D
          = some (g.take D))
    ∧ (∀ (α : Type) (parts : List (List α)) (size : ℕ) (r : List α),
        collect_results_cpu parts size = some r → r.length = size)
    ∧ (∀ (α : Type) (parts : List (List α)) (size k : ℕ),
        k < size → collectLookup parts k = none →
        collect_results_cpu parts size = none) := by
  refine ⟨?_, ?_, ?_⟩
  · intro α W m D g dflt hW hg hD
    have h1 : ∀ k ∈ List.range D,
        collectLookup ((List.range W).map (fun i => roundRobinShard W m i g dflt)) k
          = some (g.getD k dflt) := by
      intro k hk
      exact collectLookup_shard W m D g dflt hW hD k (List.mem_range.mp hk)
    have h2 := optTraverse_map
      (collectLookup ((List.range W).map (fun i => roundRobinShard W m i g dflt)))
      (fun k => g.getD k dflt) (List.range D) h1
    unfold collect_results_cpu
    rw [h2, range_map_getD_eq_take D g dflt (by omega)]
  · intro α parts size r h
    have hlen := optTraverse_length (collectLookup parts) (List.range size) r h
    simpa using hlen
  · intro α parts size k hk hnone
    exact optTraverse_none (collectLookup parts) (List.range size) k
      (List.mem_range.mpr hk) hnone

theorem C7_witness :
    (0 < 2 ∧ ([10, 11, 12, 13, 14, 15] : List ℕ).length = 2 * 3 ∧ 5 ≤ 2 * 3)
    ∧ collect_results_cpu
        ((List.range 2).map
          (fun i => roundRobinShard 2 3 i ([10, 11, 12, 13, 14, 15] : List ℕ) 0)) 5
        = some (([10, 11, 12, 13, 14, 15] : List ℕ).take 5)
    ∧ (([10, 11, 12, 13, 14, 15] : List ℕ).take 5).length = 5
    ∧ collect_results_cpu ([[], [1]] : List (List ℕ)) 1 = none :=
  ⟨⟨by decide, by decide, by decide⟩,
   C7_collect_results_cpu_order.1 ℕ 2 3 5 [10, 11, 12, 13, 14, 15] 0
     (by decide) (by decide) (by decide),
   C7_collect_results_cpu_order.2.1 ℕ
     ((List.range 2).map
       (fun i => roundRobinShard 2 3 i ([10, 11, 12, 13, 14, 15] : List ℕ) 0)) 5
     (([10, 11, 12, 13, 14, 15] : List ℕ).take 5)
     (C7_collect_results_cpu_order.1 ℕ 2 3 5 [10, 11, 12, 13, 14, 15] 0
       (by decide) (by decide) (by decide)),
   C7_collect_results_cpu_order.2.2 ℕ [[], [1]] 1 0 (by decide) (by decide)⟩

/-- C8 counterexample: at a concrete head (`hCJ`, whose single flow
transform is the identity with log-Jacobian 3) with one input image,
`forward_test` evaluates to the full pair `(logits, sum_log_jacobians) =
([[[7]]], [3])` — the Jacobian vector is part of the return value, so
`forward_test` does not return the segmentation logits only. -/
theorem C8_counterexample :
    hCJ.forward_test draw1 [[[5]]] = ([[[7]]], [3]) := by
  simp [NfBllBaseDecodeHead.forward_test, NfBllBaseDecodeHead.forward, hCJ, hC,
    nfdJ, draw1, NormalizingFlowDensity.forward,
    NfBllBaseDecodeHead.conv_seg_forward, reshapeW, reshapeB, conv1x1Image,
    pixelView, dotQ, List.range_succ]
  norm_num

/-- C8 (amended): `forward_test` passes no explicit sample count to
`forward` — the spec-modelled default of 1 (equal to `nsamples_test`) is
used — and returns `forward`'s full result, the
`(logits, sum_log_jacobians)` pair, unchanged rather than the logits only;
the constructor fixes `nsamples_test` to 1 for every argument list. -/
theorem C8_amended_forward_test :
    (∀ (h : NfBllBaseDecodeHead) (draw : ℕ → List (List ℚ))
        (x : List (List (List ℚ))),
        h.forward_test draw x = h.forward draw x 1)
    ∧ (∀ (factory : String → ℕ → ℕ → FlowTransform) (ch nc : ℕ)
        (w : List (List ℚ)) (b : List ℚ) (ld : List LossFn)
        (sp : Option (List ℚ → List ℚ → List ℚ)) (ii : ℤ) (ft : String)
        (fl nt : ℕ),
        (NfBllBaseDecodeHead.make factory ch nc w b ld sp ii ft fl nt).map
            (fun h => h.nsamples_test)
          = (NfBllBaseDecodeHead.make factory ch nc w b ld sp ii ft fl nt).map
            (fun _ => 1)) := by
  constructor
  · intro h draw x
    rfl
  · intro factory ch nc w b ld sp ii ft fl nt
    by_cases hft : ft = "iaf_flow" ∨ ft = "planar_flow" ∨ ft = "radial_flow"
    · simp only [NfBllBaseDecodeHead.make, hft, if_true]
      cases NormalizingFlowDensity.make factory (w.flatten.length + b.length) fl ft <;>
        simp [Except.map]
    · simp [NfBllBaseDecodeHead.make, hft, Except.map]

theorem dictGet?_cons (k' : String) (v' : ℚ) (d : List (String × ℚ)) (k : String) :
    dictGet? ((k', v') :: d) k = if k' = k then some v' else dictGet? d k := by
  by_cases h : k' = k
  · simp [dictGet?, List.find?_cons_of_pos, h]
  · simp [dictGet?, List.find?_cons_of_neg, h]

theorem dictContains_eq_isSome (d : List (String × ℚ)) (k : String) :
    dictContains d k = (dictGet? d k).isSome := by
  induction d with
  | nil => rfl
  | cons p d ih =>
      obtain ⟨pk, pv⟩ := p
      by_cases hp : pk = k <;>
        simp [dictContains, dictGet?_cons, hp] <;>
        simpa [dictContains] using ih

theorem dictGet?_mapSet (d : List (String × ℚ)) (k : String) (v : ℚ) (k' : String) :
    dictGet? (d.map (fun p => if p.1 = k then (p.1, v) else p)) k'
      = if k' = k then (dictGet? d k).map (fun _ => v) else dictGet? d k' := by
  induction d with
  | nil => by_cases h : k' = k <;> simp [dictGet?, h]
  | cons p d ih =>
      obtain ⟨pk, pv⟩ := p
      by_cases hp : pk = k <;> by_cases hk : k' = k
      · subst hp; subst hk
        simp [dictGet?_cons, ih]
      · have hk' : ¬(k = k') := fun hh => hk hh.symm
        subst hp
        simp [dictGet?_cons, hk, hk', ih]
      · have hp' : ¬(pk = k') := by rw [hk]; exact hp
        subst hk
        simp [dictGet?_cons, hp, hp', ih]
      · by_cases hpk : pk = k'
        · subst hpk
          simp [dictGet?_cons, hp, hk]
        · simp [dictGet?_cons, hp, hpk, hk, ih]

theorem dictGet?_append (d₁ d₂ : List (String × ℚ)) (k : String) :
    dictGet? (d₁ ++ d₂) k
      = match dictGet? d₁ k with
        | some v => some v
        | none => dictGet? d₂ k := by
  induction d₁ with
  | nil => simp [dictGet?]
  | cons p d ih =>
      obtain ⟨pk, pv⟩ := p
      by_cases hp : pk = k <;> simp [dictGet?_cons, hp, ih]

theorem dictGet?_dictSet_self (d : List (String × ℚ)) (k : String) (v : ℚ) :
    dictGet? (dictSet d k v) k = some v := by
  unfold dictSet
  by_cases hc : dictContains d k
  · rw [if_pos hc, dictGet?_mapSet, if_pos rfl]
    rw [dictContains_eq_isSome] at hc
    cases h : dictGet? d k with
    | none => rw [h] at hc; simp at hc
    | some w => simp
  · rw [if_neg hc, dictGet?_append]
    cases h : dictGet? d k with
    | none => simp [dictGet?_cons]
    | some w =>
        rw [dictContains_eq_isSome, h] at hc
        simp at hc

theorem dictGet?_dictSet_ne (d : List (String × ℚ)) (k : String) (v : ℚ)
    (k' : String) (h : k' ≠ k) :
    dictGet? (dictSet d k v) k' = dictGet? d k' := by
  unfold dictSet
  by_cases hc : dictContains d k
  · rw [if_pos hc, dictGet?_mapSet, if_neg h]
  · rw [if_neg hc, dictGet?_append]
    have h2 : ¬(k = k') := fun hh => h hh.symm
    cases hg : dictGet? d k' with
    | none => simp [dictGet?_cons, dictGet?, h2]
    | some w => simp

theorem dictContains_eq_false (l : List (String × ℚ)) (k : String)
    (h : ∀ p ∈ l, p.1 ≠ k) : dictContains l k = false := by
  simp only [dictContains, List.any_eq_false, decide_eq_true_eq]
  exact h

theorem dictSet_absent (d : List (String × ℚ)) (k : String) (v : ℚ)
    (h : dictContains d k = false) : dictSet d k v = d ++ [(k, v)] := by
  simp [dictSet, h]

theorem dictUpdate_append (d kvs : List (String × ℚ)) (p : String × ℚ) :
    dictUpdate d (kvs ++ [p]) = dictSet (dictUpdate d kvs) p.1 p.2 := by
  simp [dictUpdate, List.foldl_append]

theorem dictGet?_dictUpdate_frame (kvs : List (String × ℚ)) (k : String)
    (h : ∀ p ∈ kvs, p.1 ≠ k) :
    ∀ d, dictGet? (dictUpdate d kvs) k = dictGet? d k := by
  induction kvs with
  | nil => intro d; rfl
  | cons q kvs ih =>
      intro d
      have hq : q.1 ≠ k := h q (List.mem_cons_self _ _)
      have hstep : dictUpdate d (q :: kvs) = dictUpdate (dictSet d q.1 q.2) kvs := rfl
      rw [hstep, ih (fun p hp => h p (List.mem_cons_of_mem _ hp))]
      exact dictGet?_dictSet_ne _ _ _ _ (fun hh => hq hh.symm)

theorem dictGet?_step_edl (d : List (String × ℚ)) (name : String) (v : ℚ)
    (logs0 : List (String × ℚ)) (mj : ℚ) (x : String)
    (hx_name : x ≠ name) (hx_logs : ∀ p ∈ logs0, p.1 ≠ x)
    (hx_mj : x ≠ "mean_jacobian_logdet")
    (hmjlogs : ∀ p ∈ logs0, p.1 ≠ "mean_jacobian_logdet") :
    dictGet? (dictUpdate (dictSet d name v)
        (dictSet logs0 "mean_jacobian_logdet" mj)) x
      = dictGet? d x := by
  rw [dictSet_absent logs0 _ mj (dictContains_eq_false _ _ hmjlogs)]
  rw [show ("mean_jacobian_logdet", mj) = (("mean_jacobian_logdet", mj) : String × ℚ) from rfl,
    dictUpdate_append]
  rw [dictGet?_dictSet_ne _ _ _ _ hx_mj]
  rw [dictGet?_dictUpdate_frame logs0 x hx_logs]
  exact dictGet?_dictSet_ne _ _ _ _ hx_name

theorem dictGet?_step_edl_mj (d : List (String × ℚ)) (name : String) (v : ℚ)
    (logs0 : List (String × ℚ)) (mj : ℚ)
    (hmjlogs : ∀ p ∈ logs0, p.1 ≠ "mean_jacobian_logdet") :
    dictGet? (dictUpdate (dictSet d name v)
        (dictSet logs0 "mean_jacobian_logdet" mj)) "mean_jacobian_logdet"
      = some mj := by
  rw [dictSet_absent logs0 _ mj (dictContains_eq_false _ _ hmjlogs),
    dictUpdate_append]
  exact dictGet?_dictSet_self _ _ _

theorem dictGet?_step_edl_name (d : List (String × ℚ)) (name : String) (v : ℚ)
    (logs0 : List (String × ℚ)) (mj : ℚ)
    (hname_mj : name ≠ "mean_jacobian_logdet")
    (hlogs_name : ∀ p ∈ logs0, p.1 ≠ name)
    (hmjlogs : ∀ p ∈ logs0, p.1 ≠ "mean_jacobian_logdet") :
    dictGet? (dictUpdate (dictSet d name v)
        (dictSet logs0 "mean_jacobian_logdet" mj)) name = some v := by
  rw [dictSet_absent logs0 _ mj (dictContains_eq_false _ _ hmjlogs),
    dictUpdate_append, dictGet?_dictSet_ne _ _ _ _ hname_mj,
    dictGet?_dictUpdate_frame logs0 name hlogs_name]
  exact dictGet?_dictSet_self _ _ _

theorem lossesLoop_spec (sl lab : List ℚ) (w : Option (List ℚ)) (ign : ℤ) (mj : ℚ) :
    ∀ (ls : List LossFn) (d : List (String × ℚ)),
    (ls.map LossFn.loss_name).Nodup →
    (∀ ld ∈ ls, dictContains d ld.loss_name = false) →
    (∀ ld ∈ ls, ld.loss_name ≠ "mean_jacobian_logdet") →
    (∀ ld ∈ ls, ∀ p ∈ ld.get_logs sl lab ign,
        (∀ ld' ∈ ls, p.1 ≠ ld'.loss_name) ∧ p.1 ≠ "mean_jacobian_logdet") →
    ∃ d', lossesLoop sl lab w ign mj ls d = .ok d'
      ∧ (∀ ld ∈ ls, dictGet? d' ld.loss_name = some (ld.call sl lab none ign + mj))
      ∧ ((∃ ld ∈ ls, strStartsWith ld.loss_name "loss_edl" = true) →
          dictGet? d' "mean_jacobian_logdet" = some mj)
      ∧ ((∀ ld ∈ ls, strStartsWith ld.loss_name "loss_edl" = false) →
          dictGet? d' "mean_jacobian_logdet" = dictGet? d "mean_jacobian_logdet")
      ∧ (∀ k : String, (∀ ld ∈ ls, k ≠ ld.loss_name) →
          (∀ ld ∈ ls, ∀ p ∈ ld.get_logs sl lab ign, k ≠ p.1) →
          k ≠ "mean_jacobian_logdet" →
          dictGet? d' k = dictGet? d k) := by
  intro ls
  induction ls with
  | nil =>
      intro d _ _ _ _
      exact ⟨d, rfl, by simp, by simp, fun _ => rfl, fun _ _ _ _ => rfl⟩
  | cons ld rest ih =>
      intro d hnodup hcont hmjn hlogs
      simp only [List.map_cons, List.nodup_cons] at hnodup
      obtain ⟨hnotmem, hnodup'⟩ := hnodup
      have hname_rest : ∀ ld' ∈ rest, ld.loss_name ≠ ld'.loss_name := by
        intro ld' h' heq
        apply hnotmem
        rw [heq]
        exact List.mem_map_of_mem LossFn.loss_name h'
      have hcont_ld : dictContains d ld.loss_name = false :=
        hcont ld (List.mem_cons_self _ _)
      have hmj_ld : ld.loss_name ≠ "mean_jacobian_logdet" :=
        hmjn ld (List.mem_cons_self _ _)
      have hlogs_ld := hlogs ld (List.mem_cons_self _ _)
      have hlogs_ld_mj : ∀ p ∈ ld.get_logs sl lab ign, p.1 ≠ "mean_jacobian_logdet" :=
        fun p hp => (hlogs_ld p hp).2
      have hlogs_ld_name : ∀ p ∈ ld.get_logs sl lab ign, p.1 ≠ ld.loss_name :=
        fun p hp => (hlogs_ld p hp).1 ld (List.mem_cons_self _ _)
      have hmjn' : ∀ ld' ∈ rest, ld'.loss_name ≠ "mean_jacobian_logdet" :=
        fun ld' h' => hmjn ld' (List.mem_cons_of_mem _ h')
      have hlogs' : ∀ ld' ∈ rest, ∀ p ∈ ld'.get_logs sl lab ign,
          (∀ ld'' ∈ rest, p.1 ≠ ld''.loss_name) ∧ p.1 ≠ "mean_jacobian_logdet" :=
        fun ld' h' p hp =>
          ⟨fun ld'' h'' => (hlogs ld' (List.mem_cons_of_mem _ h') p hp).1 ld''
              (List.mem_cons_of_mem _ h''),
           (hlogs ld' (List.mem_cons_of_mem _ h') p hp).2⟩
      cases hedl : strStartsWith ld.loss_name "loss_edl" with
      | true =>
          have hred : lossesLoop sl lab w ign mj (ld :: rest) d
              = lossesLoop sl lab w ign mj rest
                  (dictUpdate (dictSet d ld.loss_name (ld.call sl lab none ign + mj))
                    (dictSet (ld.get_logs sl lab ign) "mean_jacobian_logdet" mj)) := by
            simp only [lossesLoop, hcont_ld, hedl, Bool.false_eq_true, if_false, if_true]
          have hcont2 : ∀ ld' ∈ rest,
              dictContains (dictUpdate (dictSet d ld.loss_name (ld.call sl lab none ign + mj))
                (dictSet (ld.get_logs sl lab ign) "mean_jacobian_logdet" mj)) ld'.loss_name
                = false := by
            intro ld' h'
            rw [dictContains_eq_isSome]
            rw [dictGet?_step_edl d ld.loss_name _ (ld.get_logs sl lab ign) mj ld'.loss_name
              (fun hh => hname_rest ld' h' hh.symm)
              (fun p hp => (hlogs_ld p hp).1 ld' (List.mem_cons_of_mem _ h'))
              (hmjn' ld' h') hlogs_ld_mj]
            rw [← dictContains_eq_isSome]
            exact hcont ld' (List.mem_cons_of_mem _ h')
          obtain ⟨d', hok, hB, hC1, hC2, hD⟩ := ih _ hnodup' hcont2 hmjn' hlogs'
          refine ⟨d', hred.trans hok, ?_, ?_, ?_, ?_⟩
          · intro ld' h'
            rcases List.mem_cons.mp h' with h' | h'
            · subst h'
              rw [hD ld'.loss_name hname_rest
                (fun ld'' h'' p hp hh =>
                  (hlogs ld'' (List.mem_cons_of_mem _ h'') p hp).1 ld'
                    (List.mem_cons_self _ _) hh.symm)
                hmj_ld]
              exact dictGet?_step_edl_name d ld'.loss_name _ (ld'.get_logs sl lab ign)
                mj hmj_ld hlogs_ld_name hlogs_ld_mj
            · exact hB ld' h'
          · intro _
            by_cases hex : ∃ ld' ∈ rest, strStartsWith ld'.loss_name "loss_edl" = true
            · exact hC1 hex
            · have hall : ∀ ld' ∈ rest, strStartsWith ld'.loss_name "loss_edl" = false := by
                intro ld' h'
                cases hb : strStartsWith ld'.loss_name "loss_edl" with
                | true => exact absurd ⟨ld', h', hb⟩ hex
                | false => rfl
              rw [hC2 hall]
              exact dictGet?_step_edl_mj d ld.loss_name _ (ld.get_logs sl lab ign)
                mj hlogs_ld_mj
          · intro hall
            have := hall ld (List.mem_cons_self _ _)
            rw [hedl] at this
            exact absurd this (by simp)
          · intro k hk_names hk_logs hk_mj
            rw [hD k (fun ld' h' => hk_names ld' (List.mem_cons_of_mem _ h'))
              (fun ld' h' p hp => hk_logs ld' (List.mem_cons_of_mem _ h') p hp)
              hk_mj]
            exact dictGet?_step_edl d ld.loss_name _ (ld.get_logs sl lab ign) mj k
              (hk_names ld (List.mem_cons_self _ _))
              (fun p hp hh => hk_logs ld (List.mem_cons_self _ _) p hp hh.symm)
              hk_mj hlogs_ld_mj
      | false =>
          have hred : lossesLoop sl lab w ign mj (ld :: rest) d
              = lossesLoop sl lab w ign mj rest
                  (dictSet d ld.loss_name (ld.call sl lab none ign + mj)) := by
            simp only [lossesLoop, hcont_ld, hedl, Bool.false_eq_true, if_false]
          have hcont2 : ∀ ld' ∈ rest,
              dictContains (dictSet d ld.loss_name (ld.call sl lab none ign + mj))
                ld'.loss_name = false := by
            intro ld' h'
            rw [dictContains_eq_isSome,
              dictGet?_dictSet_ne _ _ _ _ (fun hh => hname_rest ld' h' hh.symm),
              ← dictContains_eq_isSome]
            exact hcont ld' (List.mem_cons_of_mem _ h')
          obtain ⟨d', hok, hB, hC1, hC2, hD⟩ := ih _ hnodup' hcont2 hmjn' hlogs'
          refine ⟨d', hred.trans hok, ?_, ?_, ?_, ?_⟩
          · intro ld' h'
            rcases List.mem_cons.mp h' with h' | h'
            · subst h'
              rw [hD ld'.loss_name hname_rest
                (fun ld'' h'' p hp hh =>
                  (hlogs ld'' (List.mem_cons_of_mem _ h'') p hp).1 ld'
                    (List.mem_cons_self _ _) hh.symm)
                hmj_ld]
              exact dictGet?_dictSet_self _ _ _
            · exact hB ld' h'
          · rintro ⟨ld', h', hb⟩
            rcases List.mem_cons.mp h' with h' | h'
            · subst h'
              rw [hedl] at hb
              exact absurd hb (by simp)
            · exact hC1 ⟨ld', h', hb⟩
          · intro hall
            rw [hC2 (fun ld' h' => hall ld' (List.mem_cons_of_mem _ h'))]
            exact dictGet?_dictSet_ne _ _ _ _ (fun hh => hmj_ld hh.symm)
          · intro k hk_names hk_logs hk_mj
            rw [hD k (fun ld' h' => hk_names ld' (List.mem_cons_of_mem _ h'))
              (fun ld' h' p hp => hk_logs ld' (List.mem_cons_of_mem _ h') p hp)
              hk_mj]
            exact dictGet?_dictSet_ne _ _ _ _ (hk_names ld (List.mem_cons_self _ _))

/-- C5: under distinct loss names (every occurrence is then a first
occurrence), no name colliding with the seeded `acc_seg` key or the
`mean_jacobian_logdet` key, and `get_logs` keys disjoint from loss names
and from `mean_jacobian_logdet`, `losses` succeeds and: the mean of
`sum_log_jacobians` is added to every loss term — in particular to every
EDL-style one — the first (and only) time its `loss_name` appears; and the
`mean_jacobian_logdet` entry (the detached mean) is present in the
returned dict iff some loss's name starts with `"loss_edl"`. -/
theorem C5_losses_jacobian_term (E : LossExternals) (h : NfBllBaseDecodeHead)
    (sl0 lab0 slj : List ℚ)
    (hnodup : (h.loss_decode.map LossFn.loss_name).Nodup)
    (hacc : ∀ ld ∈ h.loss_decode, ld.loss_name ≠ "acc_seg")
    (hmjn : ∀ ld ∈ h.loss_decode, ld.loss_name ≠ "mean_jacobian_logdet")
    (hlogs : ∀ ld ∈ h.loss_decode,
        ∀ p ∈ ld.get_logs (E.resize sl0 lab0) (repeatN slj.length lab0) h.ignore_index,
        (∀ ld' ∈ h.loss_decode, p.1 ≠ ld'.loss_name) ∧ p.1 ≠ "mean_jacobian_logdet") :
    ∃ d', h.losses E sl0 lab0 slj = .ok d'
      ∧ (∀ ld ∈ h.loss_decode,
          dictGet? d' ld.loss_name
            = some (ld.call (E.resize sl0 lab0) (repeatN slj.length lab0) none
                      h.ignore_index + meanQ slj))
      ∧ ((∃ ld ∈ h.loss_decode, strStartsWith ld.loss_name "loss_edl" = true) →
          dictGet? d' "mean_jacobian_logdet" = some (meanQ slj))
      ∧ ((∀ ld ∈ h.loss_decode, strStartsWith ld.loss_name "loss_edl" = false) →
          dictGet? d' "mean_jacobian_logdet" = none) := by
  have hcont : ∀ ld ∈ h.loss_decode,
      dictContains [("acc_seg",
        E.accuracy (E.resize sl0 lab0) (repeatN slj.length lab0) h.ignore_index)]
        ld.loss_name = false := by
    intro ld hmem
    apply dictContains_eq_false
    intro p hp
    rcases List.mem_singleton.mp hp with rfl
    exact fun hh => hacc ld hmem hh.symm
  obtain ⟨d', hok, hB, hC1, hC2, _⟩ :=
    lossesLoop_spec (E.resize sl0 lab0) (repeatN slj.length lab0)
      (h.sampler.map (fun s => s (E.resize sl0 lab0) lab0)) h.ignore_index
      (meanQ slj) h.loss_decode
      [("acc_seg",
        E.accuracy (E.resize sl0 lab0) (repeatN slj.length lab0) h.ignore_index)]
      hnodup hcont hmjn hlogs
  refine ⟨d', hok, hB, hC1, fun hall => ?_⟩
  rw [hC2 hall]
  rfl

theorem C5_witness :
    ((headW.loss_decode.map LossFn.loss_name).Nodup
     ∧ (∀ ld ∈ headW.loss_decode, ld.loss_name ≠ "acc_seg")
     ∧ (∀ ld ∈ headW.loss_decode, ld.loss_name ≠ "mean_jacobian_logdet")
     ∧ (∀ ld ∈ headW.loss_decode,
          ∀ p ∈ ld.get_logs (E0.resize [0] [0])
              (repeatN ([2, 4] : List ℚ).length [0]) headW.ignore_index,
          (∀ ld' ∈ headW.loss_decode, p.1 ≠ ld'.loss_name)
            ∧ p.1 ≠ "mean_jacobian_logdet"))
    ∧ (∃ d', headW.losses E0 [0] [0] [2, 4] = .ok d'
        ∧ (∀ ld ∈ headW.loss_decode,
            dictGet? d' ld.loss_name
              = some (ld.call (E0.resize [0] [0])
                  (repeatN ([2, 4] : List ℚ).length [0]) none
                  headW.ignore_index + meanQ [2, 4]))
        ∧ ((∃ ld ∈ headW.loss_decode, strStartsWith ld.loss_name "loss_edl" = true) →
            dictGet? d' "mean_jacobian_logdet" = some (meanQ [2, 4]))
        ∧ ((∀ ld ∈ headW.loss_decode, strStartsWith ld.loss_name "loss_edl" = false) →
            dictGet? d' "mean_jacobian_logdet" = none)) :=
  ⟨⟨by decide, by decide, by decide, by decide⟩,
   C5_losses_jacobian_term E0 headW [0] [0] [2, 4]
     (by decide) (by decide) (by decide) (by decide)⟩

/-- C6 counterexample: a head with a configured sampler and a single
evidential loss (`loss_edl_mse`).  `losses` does **not** raise — it returns
the loss dict — and the evidential loss entry is `13 = 10 + mean`, i.e. the
loss was evaluated with `weight=None` (the weighted call would give 100),
so the sampler weight was neither applied nor did the combination raise
NotImplementedError. -/
theorem C6_counterexample :
    headE.sampler.isSome = true
    ∧ strStartsWith edlLoss.loss_name "loss_edl" = true
    ∧ headE.losses E0 [0] [0] [2, 4]
        = .ok [("acc_seg", 0), ("loss_edl_mse", 13), ("mean_jacobian_logdet", 3)] := by
  refine ⟨rfl, by decide, ?_⟩
  have hsw : strStartsWith "loss_edl_mse" "loss_edl" = true := by decide
  simp [NfBllBaseDecodeHead.losses, lossesLoop, headE, hC, E0, edlLoss,
    dictUpdate, dictSet, dictContains, dictGet?, repeatN, meanQ, hsw]
  norm_num

theorem isSome_dictGet?_dictSet (d : List (String × ℚ)) (k' : String) (v : ℚ)
    (k : String) (h : (dictGet? d k).isSome) :
    (dictGet? (dictSet d k' v) k).isSome := by
  by_cases hk : k = k'
  · subst hk
    rw [dictGet?_dictSet_self]
    rfl
  · rwa [dictGet?_dictSet_ne _ _ _ _ hk]

theorem isSome_dictGet?_dictUpdate (kvs : List (String × ℚ)) :
    ∀ (d : List (String × ℚ)) (k : String), (dictGet? d k).isSome →
      (dictGet? (dictUpdate d kvs) k).isSome := by
  induction kvs with
  | nil => intro d k h; exact h
  | cons q kvs ih =>
      intro d k h
      have hstep : dictUpdate d (q :: kvs) = dictUpdate (dictSet d q.1 q.2) kvs := rfl
      rw [hstep]
      exact ih _ _ (isSome_dictGet?_dictSet d q.1 q.2 k h)

/-- C6 (amended): the sampler weight is passed to a loss only when its
`loss_name` repeats one already computed.  First part: with pairwise
distinct loss names, `losses` never raises — even when a sampler is
configured together with evidential losses — and every loss (evidential
included) is evaluated with `weight=None`.  Second part: a repeated
`loss_name` starting with `"loss_edl"` raises `NotImplementedError`, and
it does so regardless of whether a sampler weight is present (the loop is
quantified over any `w`). -/
theorem C6_amended_sampler_weight :
    (∀ (E : LossExternals) (h : NfBllBaseDecodeHead) (sl0 lab0 slj : List ℚ),
        (h.loss_decode.map LossFn.loss_name).Nodup →
        (∀ ld ∈ h.loss_decode, ld.loss_name ≠ "acc_seg") →
        (∀ ld ∈ h.loss_decode, ld.loss_name ≠ "mean_jacobian_logdet") →
        (∀ ld ∈ h.loss_decode,
            ∀ p ∈ ld.get_logs (E.resize sl0 lab0) (repeatN slj.length lab0)
                h.ignore_index,
            (∀ ld' ∈ h.loss_decode, p.1 ≠ ld'.loss_name)
              ∧ p.1 ≠ "mean_jacobian_logdet") →
        ∃ d', h.losses E sl0 lab0 slj = .ok d'
          ∧ ∀ ld ∈ h.loss_decode,
              dictGet? d' ld.loss_name
                = some (ld.call (E.resize sl0 lab0) (repeatN slj.length lab0)
                    none h.ignore_index + meanQ slj))
    ∧ (∀ (sl lab : List ℚ) (w : Option (List ℚ)) (ign : ℤ) (mj : ℚ)
        (l1 l2 : LossFn) (d : List (String × ℚ)),
        dictContains d l1.loss_name = false →
        l2.loss_name = l1.loss_name →
        strStartsWith l1.loss_name "loss_edl" = true →
        lossesLoop sl lab w ign mj [l1, l2] d = .error "NotImplementedError") := by
  constructor
  · intro E h sl0 lab0 slj hnodup hacc hmjn hlogs
    have hcont : ∀ ld ∈ h.loss_decode,
        dictContains [("acc_seg",
          E.accuracy (E.resize sl0 lab0) (repeatN slj.length lab0) h.ignore_index)]
          ld.loss_name = false := by
      intro ld hmem
      apply dictContains_eq_false
      intro p hp
      rcases List.mem_singleton.mp hp with rfl
      exact fun hh => hacc ld hmem hh.symm
    obtain ⟨d', hok, hB, _, _, _⟩ :=
      lossesLoop_spec (E.resize sl0 lab0) (repeatN slj.length lab0)
        (h.sampler.map (fun s => s (E.resize sl0 lab0) lab0)) h.ignore_index
        (meanQ slj) h.loss_decode
        [("acc_seg",
          E.accuracy (E.resize sl0 lab0) (repeatN slj.length lab0) h.ignore_index)]
        hnodup hcont hmjn hlogs
    exact ⟨d', hok, hB⟩
  · intro sl lab w ign mj l1 l2 d hcont heq hsw
    have hred : lossesLoop sl lab w ign mj [l1, l2] d
        = lossesLoop sl lab w ign mj [l2]
            (dictUpdate (dictSet d l1.loss_name (l1.call sl lab none ign + mj))
              (dictSet (l1.get_logs sl lab ign) "mean_jacobian_logdet" mj)) := by
      simp only [lossesLoop, hcont, hsw, Bool.false_eq_true, if_false, if_true]
    have hc2 : dictContains
        (dictUpdate (dictSet d l1.loss_name (l1.call sl lab none ign + mj))
          (dictSet (l1.get_logs sl lab ign) "mean_jacobian_logdet" mj))
        l2.loss_name = true := by
      rw [heq, dictContains_eq_isSome]
      apply isSome_dictGet?_dictUpdate
      rw [dictGet?_dictSet_self]
      rfl
    have hsw2 : strStartsWith l2.loss_name "loss_edl" = true := by rw [heq]; exact hsw
    rw [hred]
    simp only [lossesLoop, hc2, hsw2, if_true]

theorem C6_witness :
    ((headE.loss_decode.map LossFn.loss_name).Nodup
     ∧ (∀ ld ∈ headE.loss_decode, ld.loss_name ≠ "acc_seg")
     ∧ (∀ ld ∈ headE.loss_decode, ld.loss_name ≠ "mean_jacobian_logdet")
     ∧ (∀ ld ∈ headE.loss_decode,
          ∀ p ∈ ld.get_logs (E0.resize [0] [0])
              (repeatN ([2, 4] : List ℚ).length [0]) headE.ignore_index,
          (∀ ld' ∈ headE.loss_decode, p.1 ≠ ld'.loss_name)
            ∧ p.1 ≠ "mean_jacobian_logdet")
     ∧ dictContains [] edlLoss.loss_name = false
     ∧ edlLoss.loss_name = edlLoss.loss_name
     ∧ strStartsWith edlLoss.loss_name "loss_edl" = true)
    ∧ (∃ d', headE.losses E0 [0] [0] [2, 4] = .ok d'
        ∧ ∀ ld ∈ headE.loss_decode,
            dictGet? d' ld.loss_name
              = some (ld.call (E0.resize [0] [0])
                  (repeatN ([2, 4] : List ℚ).length [0]) none
                  headE.ignore_index + meanQ [2, 4]))
    ∧ lossesLoop [0] [0] (some [1]) 255 3 [edlLoss, edlLoss] []
        = .error "NotImplementedError" :=
  ⟨⟨by decide, by decide, by decide, by decide, by decide, rfl, by decide⟩,
   C6_amended_sampler_weight.1 E0 headE [0] [0] [2, 4]
     (by decide) (by decide) (by decide) (by decide),
   C6_amended_sampler_weight.2 [0] [0] (some [1]) 255 3 edlLoss edlLoss []
     (by decide) rfl (by decide)⟩

end Mmseg
